import Mathlib

/-
Verification of the v5 vulnerability database store and snapshot
differencing engine (grype/db/v5/store/store.go).

The store keeps four record families (Identity, Vulnerability,
VulnerabilityMetadata, VulnerabilityMatchExclusion) in relational
tables; we embed each table as a Lean list of records and each store
operation as a pure function on those lists.  GORM-level behaviours
that the operations rely on are embedded explicitly:

  * `db.Where(&Model{ID: id, Namespace: ns})` builds conditions only
    from the non-zero (non-empty-string) fields, so an empty string
    key acts as a wildcard; `metadataWhereMatch` reproduces this.
  * `db.Save` updates by primary key; `saveMetadata` reproduces this
    by replacing every row carrying the saved record's key.
  * `db.Create` appends one row and reports one row affected.

Model/domain inflation (`model.Inflate`) is the identity for
metadata and vulnerabilities in this embedding; for match-exclusion
rows, whose Inflate can legitimately produce no value, the outcome is
carried on the row itself (`VulnerabilityMatchExclusionModel.Inflate`).

`deep.Equal`-based structural equality of CVSS entries is embedded as
decidable equality on the `Cvss` structure.
-/

/-- Modelled from the spec: the repository's `v5.Cvss` type is not part of
the provided sources; per section 3 it is "a structured value with
vector/version/score fields".  Structural (field-wise) equality stands in
for `deep.Equal`. -/
structure Cvss where
  Version : String
  Vector : String
  Score : Int
deriving DecidableEq, Repr

/-- Modelled from the spec: `v5.VulnerabilityMetadata` — one logical record
per `(ID, Namespace)` with `Severity`, `Description`, ordered `Cvss` list
and `URLs` reference links (section 3). -/
structure VulnerabilityMetadata where
  ID : String
  Namespace : String
  Severity : String
  Description : String
  Cvss : List Cvss
  URLs : List String
deriving DecidableEq, Repr

/-- Modelled from the spec: `v5.Vulnerability` — one vulnerability applying
to one package within one namespace (section 3). -/
structure Vulnerability where
  ID : String
  Namespace : String
  PackageName : String
  VersionConstraint : String
deriving DecidableEq, Repr

/-- Modelled from the spec: the Identity singleton record — schema version
plus build timestamp (section 3). -/
structure ID where
  SchemaVersion : Int
  BuildTimestamp : String
deriving DecidableEq, Repr

/- ---------------------------------------------------------------------
Lexicographic order on strings, used to embed `sort.Strings`.
Character-wise lexicographic comparison; kernel-computable.
--------------------------------------------------------------------- -/

def charListLe : List Char → List Char → Bool
  | [], _ => true
  | _ :: _, [] => false
  | a :: as, b :: bs => if a < b then true else if b < a then false else charListLe as bs

def strLe (a b : String) : Prop := charListLe a.data b.data = true

instance : DecidableRel strLe := fun a b => by unfold strLe; infer_instance

theorem charListLe_total : ∀ a b : List Char, charListLe a b = true ∨ charListLe b a = true := by
  intro a
  induction a with
  | nil => intro b; left; rfl
  | cons x xs ih =>
    intro b
    cases b with
    | nil => right; rfl
    | cons y ys =>
      by_cases hxy : x < y
      · left; simp [charListLe, hxy]
      · by_cases hyx : y < x
        · right; simp [charListLe, hyx, asymm hyx]
        · have hxy2 : ¬ y < x := hyx
          rcases ih ys with h | h
          · left; simp [charListLe, hxy, hyx, h]
          · right; simp [charListLe, hxy, hyx, h]

theorem charListLe_trans : ∀ a b c : List Char,
    charListLe a b = true → charListLe b c = true → charListLe a c = true := by
  intro a
  induction a with
  | nil => intro b c _ _; rfl
  | cons x xs ih =>
    intro b c hab hbc
    cases b with
    | nil => simp [charListLe] at hab
    | cons y ys =>
      cases c with
      | nil => simp [charListLe] at hbc
      | cons z zs =>
        simp only [charListLe] at hab hbc ⊢
        by_cases hxy : x < y
        · by_cases hyz : y < z
          · have hxz : x < z := lt_trans hxy hyz
            simp [hxz]
          · by_cases hzy : z < y
            · simp [hyz, hzy] at hbc
            · have hyz2 : y = z := le_antisymm (not_lt.mp hzy) (not_lt.mp hyz)
              subst hyz2
              simp [hxy]
        · by_cases hyx : y < x
          · simp [hxy, hyx] at hab
          · have hxy2 : x = y := le_antisymm (not_lt.mp hyx) (not_lt.mp hxy)
            subst hxy2
            simp only [lt_irrefl, if_false] at hab
            by_cases hxz : x < z
            · simp [hxz]
            · by_cases hzx : z < x
              · simp [hxz, hzx] at hbc
              · simp only [hxz, hzx, if_false] at hbc ⊢
                exact ih ys zs hab hbc

theorem charListLe_antisymm : ∀ a b : List Char,
    charListLe a b = true → charListLe b a = true → a = b := by
  intro a
  induction a with
  | nil =>
    intro b _ hba
    cases b with
    | nil => rfl
    | cons y ys => simp [charListLe] at hba
  | cons x xs ih =>
    intro b hab hba
    cases b with
    | nil => simp [charListLe] at hab
    | cons y ys =>
      simp only [charListLe] at hab hba
      by_cases hxy : x < y
      · simp [hxy, asymm hxy] at hba
      · by_cases hyx : y < x
        · simp [hxy, hyx] at hab
        · have hxy2 : x = y := le_antisymm (not_lt.mp hyx) (not_lt.mp hxy)
          subst hxy2
          simp [hxy] at hab hba
          rw [ih ys hab hba]

instance : IsTotal String strLe := ⟨fun a b => charListLe_total a.data b.data⟩

instance : IsTrans String strLe := ⟨fun a b c => charListLe_trans a.data b.data c.data⟩

instance : IsAntisymm String strLe :=
  ⟨fun a b hab hba => String.ext (charListLe_antisymm a.data b.data hab hba)⟩

/-- Embedding of `sort.Strings`: lexicographic sort. -/
def sortStrings (l : List String) : List String := List.insertionSort strLe l

/- ---------------------------------------------------------------------
Merge helpers of AddVulnerabilityMetadata (store.go lines 193-214).
--------------------------------------------------------------------- -/

/-- Append each element of `l` to `acc` unless a structurally equal element
is already present; the comparison set grows as elements are appended.
This is the shape of both the labelled `incoming` CVSS loop and the
string-set construction in `AddVulnerabilityMetadata`. -/
def dedupAppend {α : Type} [DecidableEq α] (acc : List α) (l : List α) : List α :=
  l.foldl (fun a c => if c ∈ a then a else a ++ [c]) acc

/-- The labelled `incoming` loop (store.go lines 193-206): walk `m.Cvss`,
append an incoming entry to `existing.Cvss` only when no structurally
equal entry is present in the (growing) list. -/
def mergeCvss (existing incoming : List Cvss) : List Cvss :=
  dedupAppend existing incoming

/-- URL merge (store.go lines 208-214): a string set seeded from
`existing.URLs`, extended with `m.URLs`, dumped to a slice and sorted.
The map-backed set dumps in unspecified order; since the final
`sort.Strings` makes any dump order produce the same sorted list of the
distinct members, the embedding dumps in first-seen order. -/
def mergeURLs (existing incoming : List String) : List String :=
  sortStrings (dedupAppend [] (existing ++ incoming))

/- ---------------------------------------------------------------------
Metadata table operations (store.go lines 149-240).
--------------------------------------------------------------------- -/

/-- GORM struct-based `Where(&VulnerabilityMetadataModel{ID: id, Namespace:
namespace})`: zero-valued (empty string) fields are omitted from the
condition. -/
def metadataWhereMatch (id ns : String) (m : VulnerabilityMetadata) : Bool :=
  (id == "" || m.ID == id) && (ns == "" || m.Namespace == ns)

/-- Embedding of `GetVulnerabilityMetadata` (store.go lines 150-171):
filter by the struct query; more than one row is an error, one row
inflates, zero rows is an empty (non-error) result. -/
def getVulnerabilityMetadata (table : List VulnerabilityMetadata) (id ns : String) :
    Except String (Option VulnerabilityMetadata) :=
  match table.filter (metadataWhereMatch id ns) with
  | [] => .ok none
  | [m] => .ok (some m)
  | _ => .error "found multiple metadatas for single ID and Namespace"

/-- Embedding of `db.Save(&newModel)` on the metadata table: update by
primary key, replacing every row that carries the saved record's
`(ID, Namespace)`. -/
def saveMetadata (table : List VulnerabilityMetadata) (m : VulnerabilityMetadata) :
    List VulnerabilityMetadata :=
  table.map (fun r => if r.ID == m.ID && r.Namespace == m.Namespace then m else r)

/-- Rows affected by `db.Save` on the metadata table: the number of rows
carrying the saved record's primary key. -/
def saveRowsAffected (table : List VulnerabilityMetadata) (m : VulnerabilityMetadata) : Nat :=
  (table.filter (fun r => r.ID == m.ID && r.Namespace == m.Namespace)).length

/-- Embedding of one iteration of `AddVulnerabilityMetadata`
(store.go lines 177-237).  Returns the error (if any) and the table after
the call; error returns that happen before any write leave the table
unchanged. -/
def addVulnerabilityMetadata1 (table : List VulnerabilityMetadata)
    (m : VulnerabilityMetadata) : Option String × List VulnerabilityMetadata :=
  match getVulnerabilityMetadata table m.ID m.Namespace with
  | .error e => (some ("failed to verify existing entry: " ++ e), table)
  | .ok (some existing) =>
    if existing.Severity ≠ m.Severity then
      (some "existing metadata has mismatched severity", table)
    else if existing.Description ≠ m.Description then
      (some "existing metadata has mismatched description", table)
    else
      let merged : VulnerabilityMetadata :=
        { existing with
          Cvss := mergeCvss existing.Cvss m.Cvss
          URLs := mergeURLs existing.URLs m.URLs }
      if saveRowsAffected table merged ≠ 1 then
        (some "unable to merge vulnerability metadata", saveMetadata table merged)
      else
        (none, saveMetadata table merged)
  | .ok none =>
    (none, table ++ [m])

/-- Embedding of the variadic `AddVulnerabilityMetadata` loop: records are
processed in order and the batch aborts at the first failing record,
leaving earlier writes committed. -/
def addVulnerabilityMetadata (table : List VulnerabilityMetadata) :
    List VulnerabilityMetadata → Option String × List VulnerabilityMetadata
  | [] => (none, table)
  | m :: rest =>
    match addVulnerabilityMetadata1 table m with
    | (some e, t) => (some e, t)
    | (none, t) => addVulnerabilityMetadata t rest

example :
    (addVulnerabilityMetadata1 [] ⟨"CVE-1", "ns", "High", "d", [], ["b", "a"]⟩).2 =
      [⟨"CVE-1", "ns", "High", "d", [], ["b", "a"]⟩] := by decide

example :
    (addVulnerabilityMetadata1 [⟨"CVE-1", "ns", "High", "d", [], ["b", "a"]⟩]
      ⟨"CVE-1", "ns", "High", "d", [], ["b", "a"]⟩).2 =
      [⟨"CVE-1", "ns", "High", "d", [], ["a", "b"]⟩] := by decide

/- ---------------------------------------------------------------------
Properties of the dedup-append loop and the merge helpers.
--------------------------------------------------------------------- -/

theorem dedupAppend_cons {α : Type} [DecidableEq α] (acc : List α) (c : α) (l : List α) :
    dedupAppend acc (c :: l) = dedupAppend (if c ∈ acc then acc else acc ++ [c]) l := rfl

theorem dedupAppend_sublist {α : Type} [DecidableEq α] :
    ∀ (l acc : List α), (dedupAppend acc l).Sublist (acc ++ l) := by
  intro l
  induction l with
  | nil => intro acc; simp [dedupAppend]
  | cons c rest ih =>
    intro acc
    rw [dedupAppend_cons]
    by_cases hc : c ∈ acc
    · rw [if_pos hc]
      exact (ih acc).trans (List.Sublist.append_left (List.sublist_cons_self c rest) acc)
    · rw [if_neg hc]
      have h := ih (acc ++ [c])
      simpa using h

theorem dedupAppend_split {α : Type} [DecidableEq α] :
    ∀ (l acc : List α), ∃ t, dedupAppend acc l = acc ++ t ∧ ∀ c ∈ t, c ∉ acc := by
  intro l
  induction l with
  | nil => intro acc; exact ⟨[], by simp [dedupAppend], by simp⟩
  | cons c rest ih =>
    intro acc
    rw [dedupAppend_cons]
    by_cases hc : c ∈ acc
    · rw [if_pos hc]; exact ih acc
    · rw [if_neg hc]
      obtain ⟨t, ht, hnotin⟩ := ih (acc ++ [c])
      refine ⟨c :: t, by simpa [List.append_assoc] using ht, ?_⟩
      intro x hx
      rcases List.mem_cons.mp hx with rfl | hx
      · exact hc
      · intro hmem
        exact hnotin x hx (by simp [hmem])

theorem mem_dedupAppend {α : Type} [DecidableEq α] :
    ∀ (l acc : List α) (x : α), x ∈ dedupAppend acc l ↔ x ∈ acc ∨ x ∈ l := by
  intro l
  induction l with
  | nil => intro acc x; simp [dedupAppend]
  | cons c rest ih =>
    intro acc x
    rw [dedupAppend_cons]
    by_cases hc : c ∈ acc
    · rw [if_pos hc]
      rw [ih acc x]
      constructor
      · rintro (h | h)
        · exact Or.inl h
        · exact Or.inr (List.mem_cons_of_mem c h)
      · rintro (h | h)
        · exact Or.inl h
        · rcases List.mem_cons.mp h with rfl | h
          · exact Or.inl hc
          · exact Or.inr h
    · rw [if_neg hc]
      rw [ih (acc ++ [c]) x]
      simp only [List.mem_append, List.mem_singleton, List.mem_cons]
      tauto

theorem dedupAppend_nodup {α : Type} [DecidableEq α] :
    ∀ (l acc : List α), acc.Nodup → (dedupAppend acc l).Nodup := by
  intro l
  induction l with
  | nil => intro acc h; simpa [dedupAppend] using h
  | cons c rest ih =>
    intro acc h
    rw [dedupAppend_cons]
    by_cases hc : c ∈ acc
    · rw [if_pos hc]; exact ih acc h
    · rw [if_neg hc]
      exact ih (acc ++ [c]) (by simp [List.nodup_append, h, hc])

theorem dedupAppend_eq_of_subset {α : Type} [DecidableEq α] :
    ∀ (l acc : List α), (∀ c ∈ l, c ∈ acc) → dedupAppend acc l = acc := by
  intro l
  induction l with
  | nil => intro acc _; rfl
  | cons c rest ih =>
    intro acc h
    rw [dedupAppend_cons, if_pos (h c (List.mem_cons_self c rest))]
    exact ih acc (fun x hx => h x (List.mem_cons_of_mem c hx))

theorem dedupAppend_eq_append {α : Type} [DecidableEq α] :
    ∀ (l acc : List α), (acc ++ l).Nodup → dedupAppend acc l = acc ++ l := by
  intro l
  induction l with
  | nil => intro acc _; simp [dedupAppend]
  | cons c rest ih =>
    intro acc h
    have hc : c ∉ acc := by
      intro hmem
      exact (List.disjoint_of_nodup_append h) hmem (List.mem_cons_self c rest)
    rw [dedupAppend_cons, if_neg hc]
    have h2 : ((acc ++ [c]) ++ rest).Nodup := by
      simpa [List.append_assoc] using h
    rw [ih (acc ++ [c]) h2]
    simp

theorem mergeCvss_self (l : List Cvss) : mergeCvss l l = l :=
  dedupAppend_eq_of_subset l l (fun _ h => h)

theorem mergeURLs_sorted (a b : List String) : List.Sorted strLe (mergeURLs a b) :=
  List.sorted_insertionSort strLe (dedupAppend [] (a ++ b))

theorem mergeURLs_nodup (a b : List String) : (mergeURLs a b).Nodup := by
  unfold mergeURLs sortStrings
  exact (List.perm_insertionSort strLe (dedupAppend [] (a ++ b))).symm.nodup
    (dedupAppend_nodup (a ++ b) [] List.nodup_nil)

theorem mem_mergeURLs (a b : List String) (x : String) :
    x ∈ mergeURLs a b ↔ x ∈ a ∨ x ∈ b := by
  unfold mergeURLs sortStrings
  rw [(List.perm_insertionSort strLe (dedupAppend [] (a ++ b))).mem_iff]
  rw [mem_dedupAppend]
  simp

theorem mergeURLs_self (l : List String) (hs : List.Sorted strLe l) (hn : l.Nodup) :
    mergeURLs l l = l := by
  unfold mergeURLs
  unfold dedupAppend
  rw [List.foldl_append]
  show sortStrings (dedupAppend (dedupAppend [] l) l) = l
  rw [dedupAppend_eq_append l [] (by simpa using hn)]
  simp only [List.nil_append]
  rw [dedupAppend_eq_of_subset l l (fun _ h => h)]
  exact List.Sorted.insertionSort_eq hs

/- ---------------------------------------------------------------------
Characterization of the merge branch of AddVulnerabilityMetadata.
--------------------------------------------------------------------- -/

theorem addVulnerabilityMetadata1_merge_state
    (table : List VulnerabilityMetadata) (m existing : VulnerabilityMetadata)
    (hlook : getVulnerabilityMetadata table m.ID m.Namespace = Except.ok (some existing))
    (hsev : existing.Severity = m.Severity)
    (hdesc : existing.Description = m.Description) :
    (addVulnerabilityMetadata1 table m).2 =
      saveMetadata table
        { existing with
          Cvss := mergeCvss existing.Cvss m.Cvss
          URLs := mergeURLs existing.URLs m.URLs } := by
  simp only [addVulnerabilityMetadata1, hlook]
  rw [if_neg (by simp [hsev]), if_neg (by simp [hdesc])]
  split <;> rfl

/-- C4: when an incoming metadata record carries the key of an existing
record but a different Severity or a different Description, the add fails
with the corresponding conflict error and the table is left unchanged. -/
theorem addVulnerabilityMetadata_conflict_rejected
    (table : List VulnerabilityMetadata) (m existing : VulnerabilityMetadata)
    (hlook : getVulnerabilityMetadata table m.ID m.Namespace = Except.ok (some existing))
    (hconf : existing.Severity ≠ m.Severity ∨ existing.Description ≠ m.Description) :
    ((addVulnerabilityMetadata1 table m).1 = some "existing metadata has mismatched severity" ∨
      (addVulnerabilityMetadata1 table m).1 = some "existing metadata has mismatched description") ∧
    (addVulnerabilityMetadata1 table m).2 = table := by
  simp only [addVulnerabilityMetadata1, hlook]
  by_cases hs : existing.Severity = m.Severity
  · rcases hconf with h | h
    · exact absurd hs h
    · rw [if_neg (by simp [hs]), if_pos h]
      exact ⟨Or.inr rfl, rfl⟩
  · rw [if_pos hs]
    exact ⟨Or.inl rfl, rfl⟩

theorem addVulnerabilityMetadata_conflict_rejected_witness :
    ((addVulnerabilityMetadata1 [⟨"CVE-1", "ns", "High", "d", [], []⟩]
        ⟨"CVE-1", "ns", "Low", "d", [], []⟩).1 =
          some "existing metadata has mismatched severity" ∨
      (addVulnerabilityMetadata1 [⟨"CVE-1", "ns", "High", "d", [], []⟩]
        ⟨"CVE-1", "ns", "Low", "d", [], []⟩).1 =
          some "existing metadata has mismatched description") ∧
    (addVulnerabilityMetadata1 [⟨"CVE-1", "ns", "High", "d", [], []⟩]
        ⟨"CVE-1", "ns", "Low", "d", [], []⟩).2 =
      [⟨"CVE-1", "ns", "High", "d", [], []⟩] :=
  addVulnerabilityMetadata_conflict_rejected _ _ ⟨"CVE-1", "ns", "High", "d", [], []⟩
    (by rfl) (Or.inl (by decide))

/-- C3: merging an incoming record with the same key, Severity and
Description stores a merged record whose Cvss extends the existing list
with exactly the incoming entries not already structurally present
(existing list kept as a prefix, relative order of appended entries
preserved), and whose URLs are the lexicographically sorted duplicate-free
union of both URL lists. -/
theorem addVulnerabilityMetadata_merge_union
    (table : List VulnerabilityMetadata) (m existing : VulnerabilityMetadata)
    (hlook : getVulnerabilityMetadata table m.ID m.Namespace = Except.ok (some existing))
    (hsev : existing.Severity = m.Severity)
    (hdesc : existing.Description = m.Description) :
    ∃ merged : VulnerabilityMetadata,
      (addVulnerabilityMetadata1 table m).2 = saveMetadata table merged ∧
      merged.ID = existing.ID ∧ merged.Namespace = existing.Namespace ∧
      merged.Severity = existing.Severity ∧ merged.Description = existing.Description ∧
      (∃ t, merged.Cvss = existing.Cvss ++ t ∧ ∀ c ∈ t, c ∉ existing.Cvss) ∧
      merged.Cvss.Sublist (existing.Cvss ++ m.Cvss) ∧
      (∀ c, c ∈ merged.Cvss ↔ c ∈ existing.Cvss ∨ c ∈ m.Cvss) ∧
      List.Sorted strLe merged.URLs ∧ merged.URLs.Nodup ∧
      (∀ u, u ∈ merged.URLs ↔ u ∈ existing.URLs ∨ u ∈ m.URLs) := by
  refine ⟨{ existing with
      Cvss := mergeCvss existing.Cvss m.Cvss
      URLs := mergeURLs existing.URLs m.URLs },
    addVulnerabilityMetadata1_merge_state table m existing hlook hsev hdesc,
    rfl, rfl, rfl, rfl, ?_, ?_, ?_, ?_, ?_, ?_⟩
  · exact dedupAppend_split m.Cvss existing.Cvss
  · exact dedupAppend_sublist m.Cvss existing.Cvss
  · exact fun c => mem_dedupAppend m.Cvss existing.Cvss c
  · exact mergeURLs_sorted existing.URLs m.URLs
  · exact mergeURLs_nodup existing.URLs m.URLs
  · exact fun u => mem_mergeURLs existing.URLs m.URLs u

theorem addVulnerabilityMetadata_merge_union_witness :
    (∃ merged : VulnerabilityMetadata,
      (addVulnerabilityMetadata1
          [⟨"CVE-1", "ns", "High", "d", [⟨"3.0", "AV:N", 5⟩], ["http://x"]⟩]
          ⟨"CVE-1", "ns", "High", "d", [⟨"2.0", "AV:L", 3⟩], ["http://y"]⟩).2 =
        saveMetadata [⟨"CVE-1", "ns", "High", "d", [⟨"3.0", "AV:N", 5⟩], ["http://x"]⟩] merged ∧
      merged.ID = "CVE-1" ∧ merged.Namespace = "ns" ∧
      merged.Severity = "High" ∧ merged.Description = "d" ∧
      (∃ t, merged.Cvss = [⟨"3.0", "AV:N", 5⟩] ++ t ∧
        ∀ c ∈ t, c ∉ ([⟨"3.0", "AV:N", 5⟩] : List Cvss)) ∧
      merged.Cvss.Sublist ([⟨"3.0", "AV:N", 5⟩] ++ [⟨"2.0", "AV:L", 3⟩]) ∧
      (∀ c, c ∈ merged.Cvss ↔ c ∈ ([⟨"3.0", "AV:N", 5⟩] : List Cvss) ∨
        c ∈ ([⟨"2.0", "AV:L", 3⟩] : List Cvss)) ∧
      List.Sorted strLe merged.URLs ∧ merged.URLs.Nodup ∧
      (∀ u, u ∈ merged.URLs ↔ u ∈ (["http://x"] : List String) ∨
        u ∈ (["http://y"] : List String))) ∧
    (addVulnerabilityMetadata1
        [⟨"CVE-1", "ns", "High", "d", [⟨"3.0", "AV:N", 5⟩], ["http://x"]⟩]
        ⟨"CVE-1", "ns", "High", "d", [⟨"2.0", "AV:L", 3⟩], ["http://y"]⟩).2 =
      [⟨"CVE-1", "ns", "High", "d", [⟨"3.0", "AV:N", 5⟩, ⟨"2.0", "AV:L", 3⟩],
        ["http://x", "http://y"]⟩] :=
  ⟨addVulnerabilityMetadata_merge_union _
      ⟨"CVE-1", "ns", "High", "d", [⟨"2.0", "AV:L", 3⟩], ["http://y"]⟩
      ⟨"CVE-1", "ns", "High", "d", [⟨"3.0", "AV:N", 5⟩], ["http://x"]⟩
      (by rfl) rfl rfl,
    by decide⟩

/-- C9: merging an incoming record into an existing record whose Cvss list
is free of structurally-equal duplicates yields a stored Cvss list that is
still duplicate-free, even when the incoming list contains repeats, since
each appended entry joins the comparison set for later incoming entries. -/
theorem addVulnerabilityMetadata_cvss_nodup_preserved
    (table : List VulnerabilityMetadata) (m existing : VulnerabilityMetadata)
    (hlook : getVulnerabilityMetadata table m.ID m.Namespace = Except.ok (some existing))
    (hsev : existing.Severity = m.Severity)
    (hdesc : existing.Description = m.Description)
    (hnd : existing.Cvss.Nodup) :
    ∃ merged : VulnerabilityMetadata,
      (addVulnerabilityMetadata1 table m).2 = saveMetadata table merged ∧
      merged.Cvss.Nodup ∧ (∀ c ∈ m.Cvss, c ∈ merged.Cvss) := by
  refine ⟨{ existing with
      Cvss := mergeCvss existing.Cvss m.Cvss
      URLs := mergeURLs existing.URLs m.URLs },
    addVulnerabilityMetadata1_merge_state table m existing hlook hsev hdesc, ?_, ?_⟩
  · exact dedupAppend_nodup m.Cvss existing.Cvss hnd
  · exact fun c hc => (mem_dedupAppend m.Cvss existing.Cvss c).mpr (Or.inr hc)

theorem addVulnerabilityMetadata_cvss_nodup_preserved_witness :
    (∃ merged : VulnerabilityMetadata,
      (addVulnerabilityMetadata1
          [⟨"CVE-1", "ns", "High", "d", [⟨"3.0", "AV:N", 5⟩], []⟩]
          ⟨"CVE-1", "ns", "High", "d", [⟨"2.0", "AV:L", 3⟩, ⟨"2.0", "AV:L", 3⟩], []⟩).2 =
        saveMetadata [⟨"CVE-1", "ns", "High", "d", [⟨"3.0", "AV:N", 5⟩], []⟩] merged ∧
      merged.Cvss.Nodup ∧
      (∀ c ∈ ([⟨"2.0", "AV:L", 3⟩, ⟨"2.0", "AV:L", 3⟩] : List Cvss), c ∈ merged.Cvss)) ∧
    (addVulnerabilityMetadata1
        [⟨"CVE-1", "ns", "High", "d", [⟨"3.0", "AV:N", 5⟩], []⟩]
        ⟨"CVE-1", "ns", "High", "d", [⟨"2.0", "AV:L", 3⟩, ⟨"2.0", "AV:L", 3⟩], []⟩).2 =
      [⟨"CVE-1", "ns", "High", "d", [⟨"3.0", "AV:N", 5⟩, ⟨"2.0", "AV:L", 3⟩], []⟩] :=
  ⟨addVulnerabilityMetadata_cvss_nodup_preserved _
      ⟨"CVE-1", "ns", "High", "d", [⟨"2.0", "AV:L", 3⟩, ⟨"2.0", "AV:L", 3⟩], []⟩
      ⟨"CVE-1", "ns", "High", "d", [⟨"3.0", "AV:N", 5⟩], []⟩
      (by rfl) rfl rfl (by decide),
    by decide⟩

/- ---------------------------------------------------------------------
Metadata merge idempotence (C2).
--------------------------------------------------------------------- -/

theorem metadataWhereMatch_self (m : VulnerabilityMetadata) :
    metadataWhereMatch m.ID m.Namespace m = true := by
  simp [metadataWhereMatch]

theorem metadataWhereMatch_of_key (id ns : String) (r : VulnerabilityMetadata)
    (h1 : r.ID = id) (h2 : r.Namespace = ns) : metadataWhereMatch id ns r = true := by
  simp [metadataWhereMatch, h1, h2]

theorem addVulnerabilityMetadata1_fresh (st : List VulnerabilityMetadata)
    (m : VulnerabilityMetadata)
    (hfresh : st.filter (metadataWhereMatch m.ID m.Namespace) = []) :
    addVulnerabilityMetadata1 st m = (none, st ++ [m]) := by
  simp only [addVulnerabilityMetadata1, getVulnerabilityMetadata, hfresh]

/-- C2 counterexample: the record stored after adding the same metadata
record twice differs from the record stored after a single add — the first
add stores the URL list verbatim, the second add sorts it. -/
theorem addVulnerabilityMetadata_idempotence_counterexample :
    (addVulnerabilityMetadata1
        (addVulnerabilityMetadata1 [] ⟨"CVE-1", "ns", "High", "d", [], ["b", "a"]⟩).2
        ⟨"CVE-1", "ns", "High", "d", [], ["b", "a"]⟩).2 ≠
      (addVulnerabilityMetadata1 [] ⟨"CVE-1", "ns", "High", "d", [], ["b", "a"]⟩).2 := by
  decide

/-- C2 amended: adding the same metadata record twice is idempotent
provided the record's Cvss list is free of structurally-equal duplicates
and its URLs list is duplicate-free and lexicographically sorted; the
second add then leaves the table exactly as the single add left it, and
the stored Cvss and URLs carry no duplicates. -/
theorem addVulnerabilityMetadata_idempotent
    (st : List VulnerabilityMetadata) (m : VulnerabilityMetadata)
    (hfresh : st.filter (metadataWhereMatch m.ID m.Namespace) = [])
    (hcv : m.Cvss.Nodup)
    (hus : List.Sorted strLe m.URLs) (hun : m.URLs.Nodup) :
    addVulnerabilityMetadata1 st m = (none, st ++ [m]) ∧
    addVulnerabilityMetadata1 (st ++ [m]) m = (none, st ++ [m]) ∧
    m.Cvss.Nodup ∧ m.URLs.Nodup := by
  refine ⟨addVulnerabilityMetadata1_fresh st m hfresh, ?_, hcv, hun⟩
  have hnone : ∀ r ∈ st, ¬ metadataWhereMatch m.ID m.Namespace r = true :=
    List.filter_eq_nil_iff.mp hfresh
  have hlook : getVulnerabilityMetadata (st ++ [m]) m.ID m.Namespace =
      Except.ok (some m) := by
    unfold getVulnerabilityMetadata
    rw [List.filter_append, hfresh]
    simp [List.filter_singleton, metadataWhereMatch_self m]
  have hmerged :
      ({ m with Cvss := mergeCvss m.Cvss m.Cvss, URLs := mergeURLs m.URLs m.URLs } :
        VulnerabilityMetadata) = m := by
    rw [mergeCvss_self, mergeURLs_self m.URLs hus hun]
  have hrows : saveRowsAffected (st ++ [m]) m = 1 := by
    unfold saveRowsAffected
    rw [List.filter_append]
    have h1 : st.filter (fun r => r.ID == m.ID && r.Namespace == m.Namespace) = [] := by
      rw [List.filter_eq_nil_iff]
      intro r hr hkey
      have hid : r.ID = m.ID := by
        have := (Bool.and_eq_true _ _).mp hkey
        exact eq_of_beq this.1
      have hns : r.Namespace = m.Namespace := by
        have := (Bool.and_eq_true _ _).mp hkey
        exact eq_of_beq this.2
      exact hnone r hr (metadataWhereMatch_of_key m.ID m.Namespace r hid hns)
    rw [h1]
    simp
  have hsave : saveMetadata (st ++ [m]) m = st ++ [m] := by
    unfold saveMetadata
    rw [List.map_append]
    have h1 : st.map (fun r => if r.ID == m.ID && r.Namespace == m.Namespace then m else r) =
        st := by
      have hcongr : ∀ r ∈ st,
          (if r.ID == m.ID && r.Namespace == m.Namespace then m else r) = id r := by
        intro r hr
        have hkeyneg : ¬ ((r.ID == m.ID && r.Namespace == m.Namespace) = true) := by
          intro hkey
          have hid : r.ID = m.ID := eq_of_beq ((Bool.and_eq_true _ _).mp hkey).1
          have hns : r.Namespace = m.Namespace := eq_of_beq ((Bool.and_eq_true _ _).mp hkey).2
          exact hnone r hr (metadataWhereMatch_of_key m.ID m.Namespace r hid hns)
        rw [if_neg hkeyneg]
        rfl
      rw [List.map_congr_left hcongr, List.map_id]
    rw [h1]
    simp
  simp only [addVulnerabilityMetadata1, hlook]
  rw [if_neg (by simp), if_neg (by simp)]
  simp only [hmerged, hrows]
  simp [hsave]

theorem addVulnerabilityMetadata_idempotent_witness :
    (addVulnerabilityMetadata1 []
        ⟨"CVE-1", "ns", "High", "d", [⟨"3.0", "AV:N", 5⟩], ["http://x", "http://y"]⟩ =
      (none, [⟨"CVE-1", "ns", "High", "d", [⟨"3.0", "AV:N", 5⟩], ["http://x", "http://y"]⟩]) ∧
    addVulnerabilityMetadata1
        [⟨"CVE-1", "ns", "High", "d", [⟨"3.0", "AV:N", 5⟩], ["http://x", "http://y"]⟩]
        ⟨"CVE-1", "ns", "High", "d", [⟨"3.0", "AV:N", 5⟩], ["http://x", "http://y"]⟩ =
      (none, [⟨"CVE-1", "ns", "High", "d", [⟨"3.0", "AV:N", 5⟩], ["http://x", "http://y"]⟩]) ∧
    ([⟨"3.0", "AV:N", 5⟩] : List Cvss).Nodup ∧
    (["http://x", "http://y"] : List String).Nodup) :=
  addVulnerabilityMetadata_idempotent []
    ⟨"CVE-1", "ns", "High", "d", [⟨"3.0", "AV:N", 5⟩], ["http://x", "http://y"]⟩
    (by rfl) (by decide) (by decide) (by decide)

/- ---------------------------------------------------------------------
Remaining record families and the store state.
--------------------------------------------------------------------- -/

/-- Modelled from the spec: `v5.VulnerabilityMatchExclusion` — a rule keyed
by `ID` with its own scope/justification fields (section 3). -/
structure VulnerabilityMatchExclusion where
  ID : String
  Justification : String
deriving DecidableEq, Repr

/-- A stored match-exclusion row together with the outcome of its
`Inflate`.  The model's `Inflate` (not among the provided sources) may
fail or legitimately produce no value; `GetVulnerabilityMatchExclusion`
(store.go lines 249-258) branches on exactly these three outcomes, so the
embedding carries the outcome on the row. -/
structure VulnerabilityMatchExclusionModel where
  ID : String
  Inflate : Except String (Option VulnerabilityMatchExclusion)

/-- The store: one list per table, mirroring the four models registered in
`models()` (store.go lines 23-30). -/
structure StoreState where
  ids : List ID
  vulnerabilities : List Vulnerability
  metadata : List VulnerabilityMetadata
  exclusions : List VulnerabilityMatchExclusionModel

/- ---------------------------------------------------------------------
Identity singleton (store.go lines 44-81).
--------------------------------------------------------------------- -/

/-- Embedding of `GetID` (store.go lines 45-64): more than one Identity row
is an error, one row inflates, zero rows is an empty (non-error) result. -/
def getID (st : StoreState) : Except String (Option ID) :=
  match st.ids with
  | [] => Except.ok none
  | [i] => Except.ok (some i)
  | _ => Except.error "found multiple DB IDs"

/-- Embedding of `SetID` (store.go lines 67-81): find-and-delete all
Identity rows, then create the new one; the create affects one row, and a
row count different from one would be rejected. -/
def setID (st : StoreState) (i : ID) : Option String × StoreState :=
  let cleared : StoreState := { st with ids := [] }
  let created : StoreState := { cleared with ids := cleared.ids ++ [i] }
  let rowsAffected : Nat := 1
  if rowsAffected ≠ 1 then
    (some "unable to add id", created)
  else
    (none, created)

/-- A sequence of `SetID` calls, keeping only the store (every call in the
embedding succeeds, see `setID`). -/
def setIDs (st : StoreState) (l : List ID) : StoreState :=
  l.foldl (fun s i => (setID s i).2) st

theorem setIDs_ids : ∀ (l : List ID) (i : ID), l.getLast? = some i →
    ∀ st : StoreState, (setIDs st l).ids = [i] := by
  intro l
  induction l with
  | nil => intro i hlast; simp at hlast
  | cons a rest ih =>
    intro i hlast st
    cases rest with
    | nil =>
      simp only [List.getLast?_singleton, Option.some.injEq] at hlast
      subst hlast
      rfl
    | cons b rest2 =>
      rw [List.getLast?_cons_cons] at hlast
      exact ih i hlast ((setID st a).2)

/-- C6: after any sequence of `SetID` calls the store holds exactly one
Identity row, the last-set value, `GetID` returns it, and every `SetID`
call in the sequence succeeded (the embedded create always affects exactly
one row, so the `WriteMismatch` guard never fires). -/
theorem setID_singleton (st : StoreState) (l : List ID) (i : ID)
    (hlast : l.getLast? = some i) :
    (setIDs st l).ids = [i] ∧
    getID (setIDs st l) = Except.ok (some i) ∧
    (setID st i).1 = none := by
  refine ⟨setIDs_ids l i hlast st, ?_, rfl⟩
  unfold getID
  rw [setIDs_ids l i hlast st]

theorem setID_singleton_witness :
    (setIDs ⟨[⟨9, "old"⟩], [], [], []⟩ [⟨1, "t1"⟩, ⟨2, "t2"⟩]).ids = [⟨2, "t2"⟩] ∧
    getID (setIDs ⟨[⟨9, "old"⟩], [], [], []⟩ [⟨1, "t1"⟩, ⟨2, "t2"⟩]) =
      Except.ok (some ⟨2, "t2"⟩) ∧
    (setID ⟨[⟨9, "old"⟩], [], [], []⟩ ⟨2, "t2"⟩).1 = none :=
  setID_singleton ⟨[⟨9, "old"⟩], [], [], []⟩ [⟨1, "t1"⟩, ⟨2, "t2"⟩] ⟨2, "t2"⟩ (by rfl)

/- ---------------------------------------------------------------------
Vulnerability namespaces (store.go lines 83-88).
--------------------------------------------------------------------- -/

/-- Embedding of `GetVulnerabilityNamespaces` (store.go lines 84-88): SQL
DISTINCT over the `namespace` column of the VulnerabilityMetadata table.
SQL leaves the row order unspecified; the embedding keeps first-seen
order. -/
def getVulnerabilityNamespaces (st : StoreState) : List String :=
  dedupAppend [] (st.metadata.map (fun m => m.Namespace))

/-- The claim's reading of `GetVulnerabilityNamespaces`: the distinct
Namespace values among the Vulnerability records.  Stated from the spec's
words for comparison; the source reads the VulnerabilityMetadata table
instead. -/
def specVulnerabilityNamespaces (st : StoreState) : List String :=
  dedupAppend [] (st.vulnerabilities.map (fun v => v.Namespace))

/-- C5 counterexample: a store holding one Vulnerability record in
namespace "a" and no metadata records.  The namespace "a" occurs among the
Vulnerability records, yet `GetVulnerabilityNamespaces` returns the empty
list, because it reads the VulnerabilityMetadata table. -/
theorem getVulnerabilityNamespaces_counterexample :
    getVulnerabilityNamespaces ⟨[], [⟨"CVE-1", "a", "p", "lt1"⟩], [], []⟩ = [] ∧
    specVulnerabilityNamespaces ⟨[], [⟨"CVE-1", "a", "p", "lt1"⟩], [], []⟩ = ["a"] ∧
    getVulnerabilityNamespaces ⟨[], [⟨"CVE-1", "a", "p", "lt1"⟩], [], []⟩ ≠
      specVulnerabilityNamespaces ⟨[], [⟨"CVE-1", "a", "p", "lt1"⟩], [], []⟩ :=
  ⟨rfl, rfl, by decide⟩

/-- C5 amended: `GetVulnerabilityNamespaces` returns the set of distinct
Namespace values occurring among all VulnerabilityMetadata records in the
store (without duplicates). -/
theorem getVulnerabilityNamespaces_distinct_metadata (st : StoreState) (x : String) :
    (x ∈ getVulnerabilityNamespaces st ↔ ∃ m ∈ st.metadata, m.Namespace = x) ∧
    (getVulnerabilityNamespaces st).Nodup := by
  constructor
  · unfold getVulnerabilityNamespaces
    rw [mem_dedupAppend]
    simp [List.mem_map]
  · exact dedupAppend_nodup _ [] List.nodup_nil

/- ---------------------------------------------------------------------
Match exclusions (store.go lines 242-261).
--------------------------------------------------------------------- -/

/-- The row loop of `GetVulnerabilityMatchExclusion` (store.go lines
249-258): inflate each row in order, abort on the first inflation error,
keep only the non-nil inflated values. -/
def collectExclusions : List VulnerabilityMatchExclusionModel →
    Except String (List VulnerabilityMatchExclusion)
  | [] => Except.ok []
  | m :: rest =>
    match m.Inflate with
    | Except.error e => Except.error e
    | Except.ok none => collectExclusions rest
    | Except.ok (some x) =>
      match collectExclusions rest with
      | Except.error e => Except.error e
      | Except.ok xs => Except.ok (x :: xs)

/-- Embedding of `GetVulnerabilityMatchExclusion` (store.go lines 243-261):
select the rows with the given id, then run the inflation loop. -/
def getVulnerabilityMatchExclusion (st : StoreState) (id : String) :
    Except String (List VulnerabilityMatchExclusion) :=
  collectExclusions (st.exclusions.filter (fun m => m.ID == id))

theorem collectExclusions_of_ok (ms : List VulnerabilityMatchExclusionModel)
    (h : ∀ m ∈ ms, ∃ r, m.Inflate = Except.ok r) :
    collectExclusions ms =
      Except.ok (ms.filterMap (fun m =>
        match m.Inflate with
        | Except.ok r => r
        | Except.error _ => none)) := by
  induction ms with
  | nil => rfl
  | cons m rest ih =>
    obtain ⟨r, hr⟩ := h m (List.mem_cons_self m rest)
    have hrest := ih (fun x hx => h x (List.mem_cons_of_mem m hx))
    cases r with
    | none => simp [collectExclusions, hr, hrest, List.filterMap_cons]
    | some x => simp [collectExclusions, hr, hrest, List.filterMap_cons]

/-- C10: when every stored exclusion row carrying the requested id inflates
without error, `GetVulnerabilityMatchExclusion` returns exactly the
non-nil inflated exclusions of the rows matching the id; rows whose
inflation yields no value are silently omitted, producing neither an error
nor a list entry. -/
theorem getVulnerabilityMatchExclusion_skips_nil (st : StoreState) (id : String)
    (h : ∀ m ∈ st.exclusions.filter (fun m => m.ID == id),
      ∃ r, m.Inflate = Except.ok r) :
    getVulnerabilityMatchExclusion st id =
      Except.ok ((st.exclusions.filter (fun m => m.ID == id)).filterMap (fun m =>
        match m.Inflate with
        | Except.ok r => r
        | Except.error _ => none)) :=
  collectExclusions_of_ok _ h

theorem getVulnerabilityMatchExclusion_skips_nil_witness :
    getVulnerabilityMatchExclusion
      ⟨[], [], [],
        [⟨"CVE-1", Except.ok (some ⟨"CVE-1", "j1"⟩)⟩,
         ⟨"CVE-1", Except.ok none⟩,
         ⟨"OTHER", Except.ok (some ⟨"OTHER", "j2"⟩)⟩]⟩ "CVE-1" =
      Except.ok [⟨"CVE-1", "j1"⟩] :=
  (getVulnerabilityMatchExclusion_skips_nil
    ⟨[], [], [],
      [⟨"CVE-1", Except.ok (some ⟨"CVE-1", "j1"⟩)⟩,
       ⟨"CVE-1", Except.ok none⟩,
       ⟨"OTHER", Except.ok (some ⟨"OTHER", "j2"⟩)⟩]⟩ "CVE-1"
    (by
      have hfilter :
          ([⟨"CVE-1", Except.ok (some ⟨"CVE-1", "j1"⟩)⟩,
            ⟨"CVE-1", Except.ok none⟩,
            ⟨"OTHER", Except.ok (some ⟨"OTHER", "j2"⟩)⟩] :
              List VulnerabilityMatchExclusionModel).filter (fun m => m.ID == "CVE-1") =
            [⟨"CVE-1", Except.ok (some ⟨"CVE-1", "j1"⟩)⟩, ⟨"CVE-1", Except.ok none⟩] := rfl
      intro m hm
      rw [hfilter] at hm
      rcases List.mem_cons.mp hm with rfl | hm2
      · exact ⟨some ⟨"CVE-1", "j1"⟩, rfl⟩
      · rcases List.mem_cons.mp hm2 with rfl | hm3
        · exact ⟨none, rfl⟩
        · simp at hm3)).trans (by rfl)

/- ---------------------------------------------------------------------
Close (store.go lines 281-310).
--------------------------------------------------------------------- -/

/-- The fixed compaction statements applied by `Close` (store.go lines
285-290). -/
def memoryEfficientStatements : List String :=
  ["PRAGMA cache_size = -32768",
   "PRAGMA temp_store = FILE",
   "PRAGMA mmap_size = 67108864",
   "PRAGMA journal_mode = TRUNCATE"]

/-- Embedding of `Close` (store.go lines 281-310).  `exec` is the backing
engine's outcome for each executed statement (environmental).  Each
compaction statement is applied independently; a failure is only collected
as a log warning.  The VACUUM pass runs with its outcome ignored, and the
function then returns success.  The first component lists the statements
that were warned about. -/
def closeStore (exec : String → Except String Unit) : List String × Option String :=
  let warned := memoryEfficientStatements.filterMap (fun stmt =>
    match exec stmt with
    | Except.error _ => some stmt
    | Except.ok _ => none)
  let _vacuum := exec "VACUUM;"
  (warned, none)

/-- C8: `Close` never returns an error to the caller, whatever the backing
engine does: every compaction statement is attempted independently and a
failing statement is merely warned about (second conjunct: even when every
statement fails, all four are attempted and the result is still success). -/
theorem closeStore_never_fails (exec : String → Except String Unit) :
    (closeStore exec).2 = none ∧
    (closeStore (fun _ => Except.error "disk full")).1 = memoryEfficientStatements ∧
    (closeStore (fun _ => Except.error "disk full")).2 = none :=
  ⟨rfl, by decide, rfl⟩

/- ---------------------------------------------------------------------
Snapshot differencing engine (store.go lines 312-399; the stage functions
diffVulnerabilities / diffVulnerabilityMetadata / buildVulnerabilityPkgsMap
are not among the provided sources and are modelled from spec section 4.3).
--------------------------------------------------------------------- -/

inductive DiffKind where
  | added
  | removed
  | changed
deriving DecidableEq, Repr

/-- Modelled from the spec: a `v5.Diff` changeset entry — `(ID, Namespace)`
key, `Kind` tag, reason set, and associated package names (section 3). -/
structure Diff where
  ID : String
  Namespace : String
  Kind : DiffKind
  Reasons : List String
  Packages : List String
deriving DecidableEq, Repr

abbrev DiffKey := String × String

/-- The changeset maps built by the two diff stages, keyed by
`(ID, Namespace)`.  Go maps are embedded as association lists with unique
keys; iteration order is unspecified in Go, insertion order here. -/
abbrev DiffMap := List (DiffKey × Diff)

/-- Go map read `m[k]`. -/
def mapLookup : DiffMap → DiffKey → Option Diff
  | [], _ => none
  | e :: rest, k => if e.1 = k then some e.2 else mapLookup rest k

/-- Go map assignment `m[k] = d`: replace the existing binding if the key
is present, append the binding otherwise. -/
def mapInsert : DiffMap → DiffKey → Diff → DiffMap
  | [], k, d => [(k, d)]
  | e :: rest, k, d => if e.1 = k then (k, d) :: rest else e :: mapInsert rest k d

/-- Modelled from the spec: `buildVulnerabilityPkgsMap` (section 4.3 step
3) — for each snapshot, `pkgIndex[(ID,Namespace)] -> set of PackageName`
derived from that snapshot's vulnerability rows. -/
def buildVulnerabilityPkgsMap (vulns : List Vulnerability) (k : DiffKey) : List String :=
  dedupAppend []
    ((vulns.filter (fun v => v.ID == k.1 && v.Namespace == k.2)).map
      (fun v => v.PackageName))

def vulnTripleKeys (base target : List Vulnerability) : List (String × String × String) :=
  dedupAppend [] ((base ++ target).map (fun v => (v.ID, v.Namespace, v.PackageName)))

def vulnsAt (vulns : List Vulnerability) (k : String × String × String) : List Vulnerability :=
  vulns.filter (fun v => v.ID == k.1 && v.Namespace == k.2.1 && v.PackageName == k.2.2)

/-- Accumulation of one per-package finding into the `(ID, Namespace)`
changeset map: reasons and packages aggregate, and disagreeing kinds under
one key net to `changed` (spec section 4.3 step 4). -/
def upsertVulnDiff (m : DiffMap) (id ns : String) (kind : DiffKind)
    (reason pkg : String) : DiffMap :=
  match mapLookup m (id, ns) with
  | none => mapInsert m (id, ns) ⟨id, ns, kind, [reason], [pkg]⟩
  | some old =>
    mapInsert m (id, ns)
      ⟨id, ns, if old.Kind = kind then kind else DiffKind.changed,
        dedupAppend old.Reasons [reason], dedupAppend old.Packages [pkg]⟩

/-- Modelled from the spec: `diffVulnerabilities` (section 4.3 step 4) —
group both snapshots' vulnerability rows by `(ID, Namespace, PackageName)`;
a triple present only in the target is `Added`, only in the base
`Removed`, present in both with differing rows `Changed` with reason
"vulnerability changed", identical rows produce no entry; findings
accumulate into a map keyed by `(ID, Namespace)`. -/
def diffVulnerabilities (base target : List Vulnerability) : DiffMap :=
  (vulnTripleKeys base target).foldl
    (fun m k =>
      let b := vulnsAt base k
      let t := vulnsAt target k
      if b = [] ∧ t = [] then m
      else if b = [] then
        upsertVulnDiff m k.1 k.2.1 DiffKind.added "vulnerability added" k.2.2
      else if t = [] then
        upsertVulnDiff m k.1 k.2.1 DiffKind.removed "vulnerability removed" k.2.2
      else if b = t then m
      else upsertVulnDiff m k.1 k.2.1 DiffKind.changed "vulnerability changed" k.2.2)
    []

def setEqBy {α : Type} [DecidableEq α] (a b : List α) : Bool :=
  a.all (fun x => decide (x ∈ b)) && b.all (fun x => decide (x ∈ a))

def metadataKeys (base target : List VulnerabilityMetadata) : List DiffKey :=
  dedupAppend [] ((base ++ target).map (fun m => (m.ID, m.Namespace)))

def metadataAt (ms : List VulnerabilityMetadata) (k : DiffKey) :
    List VulnerabilityMetadata :=
  ms.filter (fun m => m.ID == k.1 && m.Namespace == k.2)

/-- Modelled from the spec: the per-field reason tags of a metadata
`Changed` entry (section 4.3 step 6) — one tag per differing field, with
`Cvss` and `URLs` compared set-wise. -/
def metadataChangeReasons (b t : VulnerabilityMetadata) : List String :=
  (if b.Severity ≠ t.Severity then ["severity changed"] else []) ++
  (if b.Description ≠ t.Description then ["description changed"] else []) ++
  (if setEqBy b.Cvss t.Cvss then [] else ["cvss changed"]) ++
  (if setEqBy b.URLs t.URLs then [] else ["urls changed"])

/-- Modelled from the spec: `diffVulnerabilityMetadata` (section 4.3 step
6) — group both snapshots by `(ID, Namespace)`; a key only in the target is
`Added`, only in the base `Removed`, in both with any differing field
`Changed` with one reason per field; every emitted entry carries
`Packages` as the union of the two package indexes at that key. -/
def diffVulnerabilityMetadata (base target : List VulnerabilityMetadata)
    (basePkgMap targetPkgMap : DiffKey → List String) : DiffMap :=
  (metadataKeys base target).foldl
    (fun m k =>
      let pkgs := dedupAppend (basePkgMap k) (targetPkgMap k)
      match metadataAt base k, metadataAt target k with
      | [], [] => m
      | [], _ :: _ => mapInsert m k ⟨k.1, k.2, DiffKind.added, ["metadata added"], pkgs⟩
      | _ :: _, [] => mapInsert m k ⟨k.1, k.2, DiffKind.removed, ["metadata removed"], pkgs⟩
      | b :: _, t :: _ =>
        match metadataChangeReasons b t with
        | [] => m
        | reasons => mapInsert m k ⟨k.1, k.2, DiffKind.changed, reasons, pkgs⟩)
    []

/-- The changeset merge loop of `DiffStore` (store.go lines 388-390): every
metadata-stage entry is assigned into the vulnerability-stage map under its
key, replacing wholesale any entry the key already holds. -/
def mergeDiffMaps (allDiffsMap metaDiffsMap : DiffMap) : DiffMap :=
  metaDiffsMap.foldl (fun acc e => mapInsert acc e.1 e.2) allDiffsMap

/- ---------------------------------------------------------------------
DiffStore and its progress reporting (store.go lines 346-399).
--------------------------------------------------------------------- -/

/-- The two progress counters driven by `DiffStore`: the row counter
(incremented around the four full-table reads) and the diff-item counter
(incremented by the stage functions), each with its completion flag. -/
structure ProgressState where
  rowIncrements : Nat
  diffItemIncrements : Nat
  rowsCompleted : Bool
  diffItemsCompleted : Bool
deriving DecidableEq, Repr

def initProgress : ProgressState := ⟨0, 0, false, false⟩

def incrRows (p : ProgressState) : ProgressState :=
  { p with rowIncrements := p.rowIncrements + 1 }

def addDiffItems (p : ProgressState) (n : Nat) : ProgressState :=
  { p with diffItemIncrements := p.diffItemIncrements + n }

def completeProgress (p : ProgressState) : ProgressState :=
  { p with rowsCompleted := true, diffItemsCompleted := true }

/-- A `v5.StoreReader` as `DiffStore` consumes it: the two full-table
reads, each of which may fail with a backing-medium error. -/
structure StoreReader where
  GetAllVulnerabilities : Except String (List Vulnerability)
  GetAllVulnerabilityMetadata : Except String (List VulnerabilityMetadata)

/-- Embedding of `DiffStore` (store.go lines 347-399).  `s` is the base
(receiver) store, `target` the argument.  The row counter is incremented
immediately after each vulnerability read (before its error check) and
after each successful metadata read (after its error check), exactly as in
the source; `SetCompleted` on both counters runs only on the success
path. -/
def diffStore (s target : StoreReader) :
    Except String (List Diff) × ProgressState :=
  let p0 := initProgress
  match target.GetAllVulnerabilities with
  | Except.error e => (Except.error e, incrRows p0)
  | Except.ok targetVulns =>
    let p1 := incrRows p0
    match s.GetAllVulnerabilities with
    | Except.error e => (Except.error e, incrRows p1)
    | Except.ok baseVulns =>
      let p2 := incrRows p1
      let baseVulnPkgMap := buildVulnerabilityPkgsMap baseVulns
      let targetVulnPkgMap := buildVulnerabilityPkgsMap targetVulns
      let allDiffsMap := diffVulnerabilities baseVulns targetVulns
      let p3 := addDiffItems p2 allDiffsMap.length
      match s.GetAllVulnerabilityMetadata with
      | Except.error e => (Except.error e, p3)
      | Except.ok baseMetadata =>
        let p4 := incrRows p3
        match target.GetAllVulnerabilityMetadata with
        | Except.error e => (Except.error e, p4)
        | Except.ok targetMetadata =>
          let p5 := incrRows p4
          let metaDiffsMap :=
            diffVulnerabilityMetadata baseMetadata targetMetadata
              baseVulnPkgMap targetVulnPkgMap
          let p6 := addDiffItems p5 metaDiffsMap.length
          let merged := mergeDiffMaps allDiffsMap metaDiffsMap
          let allDiffs := merged.map (fun e => e.2)
          (Except.ok allDiffs, completeProgress p6)

/- ---------------------------------------------------------------------
The changeset merge rule (C1).
--------------------------------------------------------------------- -/

theorem mapLookup_insert_self : ∀ (m : DiffMap) (k : DiffKey) (d : Diff),
    mapLookup (mapInsert m k d) k = some d := by
  intro m
  induction m with
  | nil => intro k d; simp [mapInsert, mapLookup]
  | cons e rest ih =>
    intro k d
    by_cases hek : e.1 = k
    · simp [mapInsert, hek, mapLookup]
    · simp only [mapInsert, if_neg hek, mapLookup]
      exact ih k d

theorem mapLookup_insert_ne : ∀ (m : DiffMap) (k q : DiffKey) (d : Diff),
    k ≠ q → mapLookup (mapInsert m k d) q = mapLookup m q := by
  intro m
  induction m with
  | nil => intro k q d hne; simp [mapInsert, mapLookup, hne]
  | cons e rest ih =>
    intro k q d hne
    by_cases hek : e.1 = k
    · have heq : ¬ e.1 = q := by rw [hek]; exact hne
      simp only [mapInsert, if_pos hek, mapLookup, if_neg hne, if_neg heq]
    · simp only [mapInsert, if_neg hek, mapLookup]
      by_cases heq : e.1 = q
      · rw [if_pos heq, if_pos heq]
      · rw [if_neg heq, if_neg heq]
        exact ih k q d hne

theorem mergeDiffMaps_lookup_of_not_mem :
    ∀ (mm acc : DiffMap) (q : DiffKey), (∀ e ∈ mm, e.1 ≠ q) →
      mapLookup (mergeDiffMaps acc mm) q = mapLookup acc q := by
  intro mm
  induction mm with
  | nil => intro acc q _; rfl
  | cons e rest ih =>
    intro acc q h
    show mapLookup (mergeDiffMaps (mapInsert acc e.1 e.2) rest) q = mapLookup acc q
    rw [ih (mapInsert acc e.1 e.2) q (fun f hf => h f (List.mem_cons_of_mem e hf))]
    exact mapLookup_insert_ne acc e.1 q e.2 (h e (List.mem_cons_self e rest))

theorem mergeDiffMaps_lookup_of_mem :
    ∀ (mm : DiffMap), (mm.map (fun e => e.1)).Nodup →
      ∀ (k : DiffKey) (dm : Diff), mapLookup mm k = some dm →
      ∀ (vm : DiffMap), mapLookup (mergeDiffMaps vm mm) k = some dm := by
  intro mm
  induction mm with
  | nil => intro _ k dm hm; simp [mapLookup] at hm
  | cons e rest ih =>
    intro hnd k dm hm vm
    rw [List.map_cons] at hnd
    have h1 := (List.nodup_cons.mp hnd).1
    have h2 := (List.nodup_cons.mp hnd).2
    show mapLookup (mergeDiffMaps (mapInsert vm e.1 e.2) rest) k = some dm
    by_cases hek : e.1 = k
    · have hdm : some e.2 = some dm := by
        rw [← hm]
        simp only [mapLookup, if_pos hek]
      have hrest : ∀ f ∈ rest, f.1 ≠ k := by
        intro f hf hfk
        apply h1
        rw [hek, ← hfk]
        exact List.mem_map_of_mem (fun e => e.1) hf
      rw [mergeDiffMaps_lookup_of_not_mem rest (mapInsert vm e.1 e.2) k hrest, ← hek,
        mapLookup_insert_self]
      exact hdm
    · have hm2 : mapLookup rest k = some dm := by
        rw [← hm]
        simp only [mapLookup, if_neg hek]
      exact ih h2 k dm hm2 (mapInsert vm e.1 e.2)

/-- C1 amended: when the vulnerability-diff stage and the metadata-diff
stage both produce an entry for the same `(ID, Namespace)` key, the merge
loop of `DiffStore` stores exactly the metadata-stage entry for that key:
the metadata entry replaces the vulnerability-stage entry wholesale (its
Kind and its Reasons win; the vulnerability-stage reasons are discarded,
not added onto). -/
theorem mergeDiffMaps_metadata_wins (vm mm : DiffMap) (k : DiffKey) (dv dm : Diff)
    (hnd : (mm.map (fun e => e.1)).Nodup)
    (_hv : mapLookup vm k = some dv)
    (hm : mapLookup mm k = some dm) :
    mapLookup (mergeDiffMaps vm mm) k = some dm :=
  mergeDiffMaps_lookup_of_mem mm hnd k dm hm vm

theorem mergeDiffMaps_metadata_wins_witness :
    mapLookup
      (mergeDiffMaps
        (diffVulnerabilities [⟨"CVE-1", "nsp", "pkg", "lt 2.0"⟩]
          [⟨"CVE-1", "nsp", "pkg", "lt 3.0"⟩])
        (diffVulnerabilityMetadata [⟨"CVE-1", "nsp", "High", "d", [], []⟩]
          [⟨"CVE-1", "nsp", "Low", "d", [], []⟩]
          (buildVulnerabilityPkgsMap [⟨"CVE-1", "nsp", "pkg", "lt 2.0"⟩])
          (buildVulnerabilityPkgsMap [⟨"CVE-1", "nsp", "pkg", "lt 3.0"⟩])))
      ("CVE-1", "nsp") =
      some ⟨"CVE-1", "nsp", DiffKind.changed, ["severity changed"], ["pkg"]⟩ :=
  mergeDiffMaps_metadata_wins _ _ ("CVE-1", "nsp")
    ⟨"CVE-1", "nsp", DiffKind.changed, ["vulnerability changed"], ["pkg"]⟩
    ⟨"CVE-1", "nsp", DiffKind.changed, ["severity changed"], ["pkg"]⟩
    (by decide) (by decide) (by decide)

/-- C1 counterexample: a snapshot pair where both stages produce an entry
for the key ("CVE-1", "nsp") — the vulnerability stage with reasons
["vulnerability changed"], the metadata stage with reasons
["severity changed"].  The changeset returned by `DiffStore` holds a
single entry for that key whose reasons are the metadata-stage reasons
alone: the vulnerability-stage reason was discarded rather than kept with
the metadata-stage reasons added onto it. -/
theorem diffStore_merge_overwrites_counterexample :
    mapLookup
      (diffVulnerabilities [⟨"CVE-1", "nsp", "pkg", "lt 2.0"⟩]
        [⟨"CVE-1", "nsp", "pkg", "lt 3.0"⟩]) ("CVE-1", "nsp") =
      some ⟨"CVE-1", "nsp", DiffKind.changed, ["vulnerability changed"], ["pkg"]⟩ ∧
    mapLookup
      (diffVulnerabilityMetadata [⟨"CVE-1", "nsp", "High", "d", [], []⟩]
        [⟨"CVE-1", "nsp", "Low", "d", [], []⟩]
        (buildVulnerabilityPkgsMap [⟨"CVE-1", "nsp", "pkg", "lt 2.0"⟩])
        (buildVulnerabilityPkgsMap [⟨"CVE-1", "nsp", "pkg", "lt 3.0"⟩]))
      ("CVE-1", "nsp") =
      some ⟨"CVE-1", "nsp", DiffKind.changed, ["severity changed"], ["pkg"]⟩ ∧
    (diffStore
      ⟨Except.ok [⟨"CVE-1", "nsp", "pkg", "lt 2.0"⟩],
        Except.ok [⟨"CVE-1", "nsp", "High", "d", [], []⟩]⟩
      ⟨Except.ok [⟨"CVE-1", "nsp", "pkg", "lt 3.0"⟩],
        Except.ok [⟨"CVE-1", "nsp", "Low", "d", [], []⟩]⟩).1 =
      Except.ok [⟨"CVE-1", "nsp", DiffKind.changed, ["severity changed"], ["pkg"]⟩] ∧
    "vulnerability changed" ∉ (["severity changed"] : List String) :=
  ⟨by decide, by decide, rfl, by decide⟩

/- ---------------------------------------------------------------------
DiffStore progress and error propagation (C7).
--------------------------------------------------------------------- -/

/-- C7 counterexample: when the target vulnerability read fails, the read
error is propagated (no partial changeset) but neither progress counter is
marked complete when the engine returns — the completion calls sit only on
the success path. -/
theorem diffStore_progress_counterexample :
    (diffStore ⟨Except.ok [], Except.ok []⟩
      ⟨Except.error "read failed", Except.ok []⟩).1 = Except.error "read failed" ∧
    (diffStore ⟨Except.ok [], Except.ok []⟩
      ⟨Except.error "read failed", Except.ok []⟩).2.rowsCompleted = false ∧
    (diffStore ⟨Except.ok [], Except.ok []⟩
      ⟨Except.error "read failed", Except.ok []⟩).2.diffItemsCompleted = false :=
  ⟨rfl, rfl, rfl⟩

/-- C7 amended: both progress counters are marked complete exactly when
`DiffStore` returns a changeset (the success path, after all four
full-table reads); a failure of any of the four reads aborts the diff,
propagates that read's error as the result — so no partial changeset is
returned — and leaves both completion flags unset. -/
theorem diffStore_progress_amended (s target : StoreReader) :
    (∀ tv bv bm tm,
      target.GetAllVulnerabilities = Except.ok tv →
      s.GetAllVulnerabilities = Except.ok bv →
      s.GetAllVulnerabilityMetadata = Except.ok bm →
      target.GetAllVulnerabilityMetadata = Except.ok tm →
      (∃ ds, (diffStore s target).1 = Except.ok ds) ∧
      (diffStore s target).2.rowsCompleted = true ∧
      (diffStore s target).2.diffItemsCompleted = true ∧
      (diffStore s target).2.rowIncrements = 4) ∧
    (∀ e, target.GetAllVulnerabilities = Except.error e →
      (diffStore s target).1 = Except.error e ∧
      (diffStore s target).2.rowsCompleted = false ∧
      (diffStore s target).2.diffItemsCompleted = false) ∧
    (∀ tv e, target.GetAllVulnerabilities = Except.ok tv →
      s.GetAllVulnerabilities = Except.error e →
      (diffStore s target).1 = Except.error e ∧
      (diffStore s target).2.rowsCompleted = false ∧
      (diffStore s target).2.diffItemsCompleted = false) ∧
    (∀ tv bv e, target.GetAllVulnerabilities = Except.ok tv →
      s.GetAllVulnerabilities = Except.ok bv →
      s.GetAllVulnerabilityMetadata = Except.error e →
      (diffStore s target).1 = Except.error e ∧
      (diffStore s target).2.rowsCompleted = false ∧
      (diffStore s target).2.diffItemsCompleted = false) ∧
    (∀ tv bv bm e, target.GetAllVulnerabilities = Except.ok tv →
      s.GetAllVulnerabilities = Except.ok bv →
      s.GetAllVulnerabilityMetadata = Except.ok bm →
      target.GetAllVulnerabilityMetadata = Except.error e →
      (diffStore s target).1 = Except.error e ∧
      (diffStore s target).2.rowsCompleted = false ∧
      (diffStore s target).2.diffItemsCompleted = false) := by
  refine ⟨?_, ?_, ?_, ?_, ?_⟩
  · intro tv bv bm tm h1 h2 h3 h4
    simp only [diffStore, h1, h2, h3, h4]
    exact ⟨⟨_, rfl⟩, rfl, rfl, rfl⟩
  · intro e h1
    simp [diffStore, incrRows, addDiffItems, initProgress, h1]
  · intro tv e h1 h2
    simp [diffStore, incrRows, addDiffItems, initProgress, h1, h2]
  · intro tv bv e h1 h2 h3
    simp [diffStore, incrRows, addDiffItems, initProgress, h1, h2, h3]
  · intro tv bv bm e h1 h2 h3 h4
    simp [diffStore, incrRows, addDiffItems, initProgress, h1, h2, h3, h4]

theorem diffStore_progress_amended_witness :
    (∃ ds, (diffStore ⟨Except.ok [], Except.ok []⟩
      ⟨Except.ok [], Except.ok []⟩).1 = Except.ok ds) ∧
    (diffStore ⟨Except.ok [], Except.ok []⟩
      ⟨Except.ok [], Except.ok []⟩).2.rowsCompleted = true ∧
    (diffStore ⟨Except.ok [], Except.ok []⟩
      ⟨Except.ok [], Except.ok []⟩).2.diffItemsCompleted = true ∧
    (diffStore ⟨Except.ok [], Except.ok []⟩
      ⟨Except.ok [], Except.ok []⟩).2.rowIncrements = 4 :=
  (diffStore_progress_amended ⟨Except.ok [], Except.ok []⟩
    ⟨Except.ok [], Except.ok []⟩).1 [] [] [] [] rfl rfl rfl rfl
